import Mathlib

/-!
Shallow embedding of the spaced-repetition scheduling core of the
words-telegram-bot repository (file `repetition.go`), together with proofs
of the specified properties.

Modelling conventions:
* Go strings are modelled as `List Char`.
* Unix timestamps (seconds) and the `ease`/`ivl` columns are modelled as `ℤ`
  (the Go code uses `int64`; none of the verified properties depend on
  64-bit wraparound, and all values reachable from the verified operations
  stay far below 2^63).
* The SQLite table `Repetition` is modelled as a `List Row` in insertion
  order.  `QueryRow` returns the first matching row (`List.find?`) or the
  no-rows error; `UPDATE`/`DELETE` affect every matching row; `INSERT`
  appends.
* `time.Now()` is passed in explicitly as a `now : ℤ` parameter (the Go
  code reads the clock twice inside `CalcSchedule`; both reads are modelled
  by the single `now` value, which is exact at second granularity).
* Go `float64` arithmetic on the schedule multiplier is modelled exactly:
  every multiplier produced by the code is a rational with denominator
  1000 (1.2 = 1200/1000, ease/100 = 10*ease/1000, ease*1.3/100 =
  13*ease/1000, cap 13.0 = 13000/1000), so the multiplier is carried as an
  integer numerator over the fixed denominator 1000, and the Go conversion
  `int64(float64(ivl) * mult)` (truncation toward zero) is
  `Int.tdiv (ivl * multNum) 1000`.
-/

/-- The four grades of `AnswerEase` in `repetition.go`. -/
inductive AnswerEase
  | AnswerAgain
  | AnswerHard
  | AnswerGood
  | AnswerEasy
deriving DecidableEq, Repr

/-- One row of the `Repetition` table (the `stage` column is obsolete in the
source and only ever written as 0). -/
structure Row where
  chat_id : Int
  word : List Char
  definition : List Char
  stage : Int
  ease : Int
  ivl : Int
  last_updated_seconds : Int
  next_review_seconds : Int
deriving DecidableEq, Repr

/-- The `Repetition` table, in insertion order. -/
abbrev DB := List Row

/-- Errors surfaced by the store operations.  `notFound` models
`sql.ErrNoRows`, the "no rows" result of `QueryRow.Scan` (the spec's
`NotFoundError`); `wrapped` models `fmt.Errorf("...: %w", err)`. -/
inductive RepError
  | notFound
  | wrapped (context : String) (cause : RepError)
deriving DecidableEq, Repr

/-- The configuration fields of the Go `Repetition` struct. -/
structure RepetitionConfig where
  initialEase : Int
  initialIvl : Int
  againDelaySeconds : Int
deriving DecidableEq, Repr

/-- The configuration built by `NewRepetition`: `initialEase = 250`,
`initialIvl = 0`, `againDelay = 20 * time.Second`. -/
def newRepetition : RepetitionConfig :=
  { initialEase := 250, initialIvl := 0, againDelaySeconds := 20 }

/-- The result of `CalcSchedule` (the Go `Schedule` struct). -/
structure Schedule where
  ivl : Int
  ease : Int
  last_updated_seconds : Int
  next_review_seconds : Int
deriving DecidableEq, Repr

/-- `Repetition.Save`: `INSERT INTO Repetition(...) VALUES(...)` with the
configured initial ease/interval; `next_review_seconds` is
`t + initialIvl * int64(time.Hour.Seconds())`, i.e. `t + initialIvl * 3600`
(the source multiplies by one hour of seconds here, not one day).
A plain INSERT: the row is appended even when a row with the same
`(chat_id, word)` already exists (source comment:
`FIXME: Don't insert duplicates!`). -/
def Save (cfg : RepetitionConfig) (db : DB) (chatID : Int)
    (word definition : List Char) (now : Int) : DB :=
  db ++ [{ chat_id := chatID, word := word, definition := definition,
           stage := 0, ease := cfg.initialEase, ivl := cfg.initialIvl,
           last_updated_seconds := now,
           next_review_seconds := now + cfg.initialIvl * 3600 }]

/-- `strings.Split(d, "\n\n")`: split around leftmost non-overlapping
occurrences of the two-character separator. -/
def splitNN : List Char → List (List Char)
  | '\n' :: '\n' :: s => [] :: splitNN s
  | c :: s =>
    match splitNN s with
    | [] => [[c]]
    | p :: ps => (c :: p) :: ps
  | [] => [[]]

/-- `strings.Join(parts, "\n\n")`. -/
def joinNN : List (List Char) → List Char
  | [] => []
  | [p] => p
  | p :: ps => p ++ '\n' :: '\n' :: joinNN ps

/-- Boolean test that the first list is a leading segment of the second
(the comparison `strings.Replace` performs at each position). -/
def pre : List Char → List Char → Bool
  | [], _ => true
  | _ :: _, [] => false
  | a :: as, b :: bs => if a = b then pre as bs else false

/-- `strings.Replace(s, "", new, -1)`: with an empty pattern, Go inserts
the replacement before every character and at the end. -/
def interleave (r : List Char) : List Char → List Char
  | [] => r
  | c :: s => r ++ c :: interleave r s

/-- Greedy leftmost non-overlapping replacement, fuelled so that the
recursion is structural; `replaceAll` supplies `fuel = s.length`, which by
`occurs_raF`/`pre_raF` style arguments below is always enough since each
replaced occurrence consumes at least one character (`w ≠ []`). -/
def raF (w r : List Char) : Nat → List Char → List Char
  | _, [] => []
  | 0, _ :: _ => []
  | fuel + 1, c :: s =>
    if pre w (c :: s) = true then r ++ raF w r fuel ((c :: s).drop w.length)
    else c :: raF w r fuel s

/-- `strings.ReplaceAll(s, old, new)`. -/
def replaceAll (s old new : List Char) : List Char :=
  if old.isEmpty then interleave new s else raF old new s.length s

/-- Boolean substring occurrence test (`strings.Contains(s, w)` semantics):
`occurs w s = true` iff `w` occurs contiguously inside `s`
(see `occurs_iff_append`). -/
def occurs (w : List Char) : List Char → Bool
  | [] => w.isEmpty
  | c :: s => pre w (c :: s) || occurs w s

/-- The masking performed by `Repetition.Repeat` on a fetched definition:
strip the first `"\n\n"`-separated section when there is more than one,
then replace all occurrences of the word by `"********"`. -/
def maskDefinition (definition word : List Char) : List Char :=
  let s := splitNN definition
  replaceAll (if s.length > 1 then joinNN s.tail else definition)
    word (List.replicate 8 '*')

/-- The spec's description of the stripping step: the definition with its
first blank-line-separated section removed (unchanged when there is only
one section). -/
def stripFirstSection (definition : List Char) : List Char :=
  if (splitNN definition).length > 1 then joinNN (splitNN definition).tail
  else definition

/-- `Repetition.Repeat`: first row with `next_review_seconds <= now` and
matching `chat_id`; its definition is masked.  The operation only issues a
`SELECT`, so the table is returned unchanged as the second component. -/
def Repeat (db : DB) (chatID now : Int) : Except RepError (List Char) × DB :=
  match db.find? (fun r => decide (r.next_review_seconds ≤ now ∧ r.chat_id = chatID)) with
  | none => (.error .notFound, db)
  | some r => (.ok (maskDefinition r.definition r.word), db)

/-- `Repetition.RepeatWord`: like `Repeat` but returns the word itself. -/
def RepeatWord (db : DB) (chatID now : Int) : Except RepError (List Char) × DB :=
  match db.find? (fun r => decide (r.next_review_seconds ≤ now ∧ r.chat_id = chatID)) with
  | none => (.error .notFound, db)
  | some r => (.ok r.word, db)

/-- Elapsed-time correction (`repetition.go` lines 228-231): the whole days
since the previous review, truncated toward zero
(`int64(time.Now().Sub(...).Hours() / 24)`), replace the stored interval
when they exceed it. -/
def effectiveIvl (ivl last_update now : Int) : Int :=
  let d := Int.tdiv (now - last_update) 86400
  if d > ivl then d else ivl

/-- The ease adjustment of the `switch answ` statement. -/
def adjustEase (ease : Int) (answ : AnswerEase) : Int :=
  match answ with
  | .AnswerAgain => ease - 20
  | .AnswerHard => ease - 15
  | .AnswerGood => ease
  | .AnswerEasy => ease + 15

/-- Numerator (over the fixed denominator 1000) of the multiplier chosen by
the `switch answ` statement, as a function of the already-adjusted ease:
`Again` 1.0, `Hard` 1.2, `Good` ease/100 (ease unchanged by `Good`),
`Easy` ease * 1.3 / 100 with the ease already incremented by 15. -/
def multNum (ease : Int) (answ : AnswerEase) : Int :=
  match answ with
  | .AnswerAgain => 1000
  | .AnswerHard => 1200
  | .AnswerGood => 10 * ease
  | .AnswerEasy => 13 * ease

/-- Clamping of ease to `[130, 1300]`. -/
def clampEase (ease : Int) : Int :=
  if ease < 130 then 130 else if ease > 1300 then 1300 else ease

/-- The `switch ivl` statement computing the new interval for a non-`Again`
grade: 0 ↦ 1, 1 ↦ 3, otherwise `int64(float64(ivl) * mult)` with a forced
`+1` when truncation produced no growth.  `mult` is the multiplier
numerator over 1000 (already capped at 13.0 = 13000/1000). -/
def nextIvl (p mult : Int) : Int :=
  if p = 0 then 1
  else if p = 1 then 3
  else if Int.tdiv (p * mult) 1000 = p then p + 1
  else Int.tdiv (p * mult) 1000

/-- The pure part of `Repetition.CalcSchedule` (lines 228-280), applied to
the values scanned from the matched row.  `mult = math.Min(mult, 13)` is
applied to the pre-clamp adjusted ease, exactly as in the source. -/
def calcScheduleCore (cfg : RepetitionConfig) (ease ivl last_update now : Int)
    (answ : AnswerEase) : Schedule :=
  let ivl1 := effectiveIvl ivl last_update now
  let ease1 := adjustEase ease answ
  let mult := min (multNum ease1 answ) 13000
  let ease2 := clampEase ease1
  if answ = AnswerEase.AnswerAgain then
    { ivl := 0, ease := ease2, last_updated_seconds := now,
      next_review_seconds := now + cfg.againDelaySeconds }
  else
    { ivl := nextIvl ivl1 mult, ease := ease2, last_updated_seconds := now,
      next_review_seconds := now + nextIvl ivl1 mult * 86400 }

/-- `Repetition.CalcSchedule`: scan the row for `(word, chatID)`; no row is
the no-rows error; otherwise the pure schedule computation.  Only a
`SELECT` is issued, so the table is returned unchanged. -/
def CalcSchedule (cfg : RepetitionConfig) (db : DB) (chatID : Int)
    (word : List Char) (answ : AnswerEase) (now : Int) :
    Except RepError Schedule × DB :=
  match db.find? (fun r => decide (r.word = word ∧ r.chat_id = chatID)) with
  | none => (.error .notFound, db)
  | some r =>
    (.ok (calcScheduleCore cfg r.ease r.ivl r.last_updated_seconds now answ), db)

/-- `Repetition.Answer`: compute the schedule, then
`UPDATE Repetition SET ... WHERE word = $5 AND chat_id = $6` (which touches
every matching row); on a `CalcSchedule` error the error is returned as-is
and nothing is written. -/
def Answer (cfg : RepetitionConfig) (db : DB) (chatID : Int)
    (word : List Char) (answ : AnswerEase) (now : Int) :
    Except RepError Unit × DB :=
  match (CalcSchedule cfg db chatID word answ now).1 with
  | .error e => (.error e, db)
  | .ok sc =>
    (.ok (), db.map fun r =>
      if r.word = word ∧ r.chat_id = chatID then
        { r with ease := sc.ease, ivl := sc.ivl,
                 last_updated_seconds := sc.last_updated_seconds,
                 next_review_seconds := sc.next_review_seconds }
      else r)

/-- `Repetition.GetDefinition`: the scanned definition, with the no-rows
error wrapped by `fmt.Errorf("INTERNAL: Did not find definition: %w", err)`.
Read-only. -/
def GetDefinition (db : DB) (chatID : Int) (word : List Char) :
    Except RepError (List Char) × DB :=
  match db.find? (fun r => decide (r.word = word ∧ r.chat_id = chatID)) with
  | none => (.error (.wrapped "INTERNAL: Did not find definition" .notFound), db)
  | some r => (.ok r.definition, db)

/-- `Repetition.Exists` (named `CardExists` after the spec's external
interface, since `Exists` collides with the Lean quantifier):
`SELECT COUNT(*)` and compare with 0.  Read-only. -/
def CardExists (db : DB) (chatID : Int) (word : List Char) :
    Except RepError Bool × DB :=
  (.ok (decide (0 < db.countP (fun r => decide (r.chat_id = chatID ∧ r.word = word)))), db)

/-- `Repetition.Delete`: `DELETE FROM Repetition WHERE word ... AND chat_id
...`; deleting zero rows is not an error. -/
def Delete (db : DB) (chatID : Int) (word : List Char) :
    Except RepError Unit × DB :=
  (.ok (), db.filter (fun r => !(decide (r.word = word ∧ r.chat_id = chatID))))

/-- One grading step on an `(ease, interval)` state with zero elapsed time
(`last_update = now = 0`), as in the spec's concrete scenarios. -/
def gradeStep (st : Int × Int) (answ : AnswerEase) : Int × Int :=
  let sc := calcScheduleCore newRepetition st.1 st.2 0 0 answ
  (sc.ease, sc.ivl)

/-- The grade sequence of claim C1. -/
def c1Grades : List AnswerEase :=
  [.AnswerAgain, .AnswerGood, .AnswerGood, .AnswerGood, .AnswerGood,
   .AnswerAgain, .AnswerEasy, .AnswerEasy, .AnswerEasy, .AnswerHard]

/-! ### Helper lemmas about the schedule arithmetic -/

theorem clampEase_bounds (e : Int) : 130 ≤ clampEase e ∧ clampEase e ≤ 1300 := by
  unfold clampEase
  split_ifs <;> omega

theorem effectiveIvl_nonneg (ivl last_update now : Int) (h : 0 ≤ ivl) :
    0 ≤ effectiveIvl ivl last_update now := by
  unfold effectiveIvl
  dsimp only
  split_ifs with hd <;> omega

theorem effectiveIvl_ge (ivl last_update now : Int) :
    ivl ≤ effectiveIvl ivl last_update now := by
  unfold effectiveIvl
  dsimp only
  split_ifs with hd <;> omega

theorem multNum_ge (ease : Int) (answ : AnswerEase) (h1 : 130 ≤ ease)
    (ha : answ ≠ AnswerEase.AnswerAgain) :
    1000 ≤ multNum (adjustEase ease answ) answ := by
  cases answ with
  | AnswerAgain => exact absurd rfl ha
  | AnswerHard => simp [multNum, adjustEase]
  | AnswerGood => simp only [multNum, adjustEase]; omega
  | AnswerEasy => simp only [multNum, adjustEase]; omega

theorem tdiv_nonpos_of_nonpos (a b : Int) (ha : a ≤ 0) (hb : 0 ≤ b) :
    Int.tdiv a b ≤ 0 := by
  have hrw : Int.tdiv a b = -(Int.tdiv (-a) b) := by
    rw [← Int.neg_tdiv, neg_neg]
  have hn : 0 ≤ Int.tdiv (-a) b := Int.tdiv_nonneg (by linarith) hb
  omega

theorem nextIvl_bounds (p m : Int) (hp : 0 ≤ p) (hm1 : 1000 ≤ m) (hm2 : m ≤ 13000) :
    p < nextIvl p m ∧ (p = 0 → nextIvl p m = 1) ∧ (p = 1 → nextIvl p m = 3) ∧
    (2 ≤ p → p + 1 ≤ nextIvl p m ∧ nextIvl p m ≤ 13 * p) := by
  by_cases h0 : p = 0
  · subst h0; simp [nextIvl]
  · by_cases h1 : p = 1
    · subst h1; simp [nextIvl]
    · have hp2 : 2 ≤ p := by omega
      have hq : Int.tdiv (p * m) 1000 = p * m / 1000 :=
        Int.tdiv_eq_ediv (mul_nonneg hp (by linarith)) (by norm_num)
      have hlo : p ≤ p * m / 1000 := by
        calc p = p * 1000 / 1000 := (Int.mul_ediv_cancel p (by norm_num)).symm
        _ ≤ p * m / 1000 :=
          Int.ediv_le_ediv (by norm_num) (by nlinarith)
      have hhi : p * m / 1000 ≤ 13 * p := by
        calc p * m / 1000 ≤ 13 * p * 1000 / 1000 :=
          Int.ediv_le_ediv (by norm_num) (by nlinarith)
        _ = 13 * p := Int.mul_ediv_cancel _ (by norm_num)
      have hkey : p + 1 ≤ nextIvl p m ∧ nextIvl p m ≤ 13 * p := by
        unfold nextIvl
        rw [if_neg h0, if_neg h1, hq]
        split_ifs with he <;> omega
      have hk1 := hkey.1
      exact ⟨by omega, fun h => absurd h h0, fun h => absurd h h1, fun _ => hkey⟩

theorem calcScheduleCore_ease (cfg : RepetitionConfig) (ease ivl lu now : Int)
    (answ : AnswerEase) :
    (calcScheduleCore cfg ease ivl lu now answ).ease =
      clampEase (adjustEase ease answ) := by
  unfold calcScheduleCore
  split_ifs <;> rfl

theorem calcScheduleCore_again (cfg : RepetitionConfig) (ease ivl lu now : Int) :
    calcScheduleCore cfg ease ivl lu now AnswerEase.AnswerAgain =
      { ivl := 0, ease := clampEase (adjustEase ease AnswerEase.AnswerAgain),
        last_updated_seconds := now,
        next_review_seconds := now + cfg.againDelaySeconds } := by
  unfold calcScheduleCore
  simp

theorem calcScheduleCore_notAgain (cfg : RepetitionConfig) (ease ivl lu now : Int)
    (answ : AnswerEase) (ha : answ ≠ AnswerEase.AnswerAgain) :
    calcScheduleCore cfg ease ivl lu now answ =
      { ivl := nextIvl (effectiveIvl ivl lu now)
                 (min (multNum (adjustEase ease answ) answ) 13000),
        ease := clampEase (adjustEase ease answ),
        last_updated_seconds := now,
        next_review_seconds :=
          now + nextIvl (effectiveIvl ivl lu now)
                  (min (multNum (adjustEase ease answ) answ) 13000) * 86400 } := by
  unfold calcScheduleCore
  simp [ha]

/-! ### Claims C1-C4 and C10 -/

/-- C1: starting from `(ease, interval) = (250, 0)` and grading with zero
elapsed time, the sequence Again, Good, Good, Good, Good, Again, Easy,
Easy, Easy, Hard produces exactly the `(ease, interval)` states
(230,0), (230,1), (230,3), (230,6), (230,13), (210,0), (225,1), (240,3),
(255,9), (240,10). -/
theorem c1_grade_trace :
    (List.scanl gradeStep (250, 0) c1Grades).tail =
      [(230, 0), (230, 1), (230, 3), (230, 6), (230, 13),
       (210, 0), (225, 1), (240, 3), (255, 9), (240, 10)] := by decide

/-- C2: the ease produced by a single schedule computation always lies in
`[130, 1300]` whatever the stored ease, interval, times and grade are; in
particular after any nonempty sequence of grading steps the ease lies in
`[130, 1300]`. -/
theorem c2_ease_clamped :
    (∀ (cfg : RepetitionConfig) (ease ivl lu now : Int) (answ : AnswerEase),
      130 ≤ (calcScheduleCore cfg ease ivl lu now answ).ease ∧
        (calcScheduleCore cfg ease ivl lu now answ).ease ≤ 1300) ∧
    (∀ (st : Int × Int) (gs : List AnswerEase) (g : AnswerEase),
      130 ≤ (List.foldl gradeStep st (gs ++ [g])).1 ∧
        (List.foldl gradeStep st (gs ++ [g])).1 ≤ 1300) := by
  have hstep : ∀ (cfg : RepetitionConfig) (ease ivl lu now : Int) (answ : AnswerEase),
      130 ≤ (calcScheduleCore cfg ease ivl lu now answ).ease ∧
        (calcScheduleCore cfg ease ivl lu now answ).ease ≤ 1300 := by
    intro cfg ease ivl lu now answ
    rw [calcScheduleCore_ease]
    exact clampEase_bounds _
  refine ⟨hstep, ?_⟩
  intro st gs g
  rw [List.foldl_append]
  exact hstep newRepetition _ _ 0 0 g

/-- C3: for a non-`Again` grade and stored ease in `[130, 1300]`, the new
interval strictly exceeds the effective prior interval: effective prior 0
maps to 1, 1 maps to 3, and an effective prior ≥ 2 maps to at least
`prior + 1` and (multiplier capped at 13.0) at most `13 * prior`. -/
theorem c3_interval_growth (ease ivl lu now : Int) (answ : AnswerEase)
    (h1 : 130 ≤ ease) (h2 : ease ≤ 1300) (ha : answ ≠ AnswerEase.AnswerAgain)
    (h4 : 0 ≤ ivl) :
    effectiveIvl ivl lu now < (calcScheduleCore newRepetition ease ivl lu now answ).ivl ∧
    (effectiveIvl ivl lu now = 0 →
      (calcScheduleCore newRepetition ease ivl lu now answ).ivl = 1) ∧
    (effectiveIvl ivl lu now = 1 →
      (calcScheduleCore newRepetition ease ivl lu now answ).ivl = 3) ∧
    (2 ≤ effectiveIvl ivl lu now →
      effectiveIvl ivl lu now + 1 ≤
          (calcScheduleCore newRepetition ease ivl lu now answ).ivl ∧
        (calcScheduleCore newRepetition ease ivl lu now answ).ivl ≤
          13 * effectiveIvl ivl lu now) := by
  rw [calcScheduleCore_notAgain newRepetition ease ivl lu now answ ha]
  exact nextIvl_bounds (effectiveIvl ivl lu now)
    (min (multNum (adjustEase ease answ) answ) 13000)
    (effectiveIvl_nonneg ivl lu now h4)
    (le_min (multNum_ge ease answ h1 ha) (by norm_num))
    (min_le_right _ _)

/-- C3 witness: instantiation at ease 250, stored interval 3, grade Good. -/
theorem c3_interval_growth_witness :
    effectiveIvl 3 0 0 < (calcScheduleCore newRepetition 250 3 0 0 AnswerEase.AnswerGood).ivl ∧
    (effectiveIvl 3 0 0 = 0 →
      (calcScheduleCore newRepetition 250 3 0 0 AnswerEase.AnswerGood).ivl = 1) ∧
    (effectiveIvl 3 0 0 = 1 →
      (calcScheduleCore newRepetition 250 3 0 0 AnswerEase.AnswerGood).ivl = 3) ∧
    (2 ≤ effectiveIvl 3 0 0 →
      effectiveIvl 3 0 0 + 1 ≤
          (calcScheduleCore newRepetition 250 3 0 0 AnswerEase.AnswerGood).ivl ∧
        (calcScheduleCore newRepetition 250 3 0 0 AnswerEase.AnswerGood).ivl ≤
          13 * effectiveIvl 3 0 0) :=
  c3_interval_growth 250 3 0 0 AnswerEase.AnswerGood (by decide) (by decide)
    (by decide) (by decide)

/-- C4: every grading leaves `last_updated_seconds = now` and
`next_review_seconds > now`; `Again` resets the interval to 0 with the
sub-day 20-second delay, and every other grade yields an interval ≥ 1 and
`next_review_seconds = now + interval * 86400`. -/
theorem c4_next_review_after_last (ease ivl lu now : Int) (answ : AnswerEase)
    (h1 : 130 ≤ ease) (h4 : 0 ≤ ivl) :
    (calcScheduleCore newRepetition ease ivl lu now answ).last_updated_seconds = now ∧
    now < (calcScheduleCore newRepetition ease ivl lu now answ).next_review_seconds ∧
    (answ = AnswerEase.AnswerAgain →
      (calcScheduleCore newRepetition ease ivl lu now answ).ivl = 0 ∧
      (calcScheduleCore newRepetition ease ivl lu now answ).next_review_seconds =
        now + newRepetition.againDelaySeconds) ∧
    (answ ≠ AnswerEase.AnswerAgain →
      1 ≤ (calcScheduleCore newRepetition ease ivl lu now answ).ivl ∧
      (calcScheduleCore newRepetition ease ivl lu now answ).next_review_seconds =
        now + (calcScheduleCore newRepetition ease ivl lu now answ).ivl * 86400) ∧
    newRepetition.againDelaySeconds = 20 ∧ newRepetition.againDelaySeconds < 86400 := by
  by_cases ha : answ = AnswerEase.AnswerAgain
  · subst ha
    rw [calcScheduleCore_again]
    refine ⟨rfl, ?_, fun _ => ⟨rfl, rfl⟩, fun h => absurd rfl h, rfl, by decide⟩
    show now < now + newRepetition.againDelaySeconds
    have hd : newRepetition.againDelaySeconds = 20 := rfl
    omega
  · rw [calcScheduleCore_notAgain newRepetition ease ivl lu now answ ha]
    have hb := nextIvl_bounds (effectiveIvl ivl lu now)
      (min (multNum (adjustEase ease answ) answ) 13000)
      (effectiveIvl_nonneg ivl lu now h4)
      (le_min (multNum_ge ease answ h1 ha) (by norm_num))
      (min_le_right _ _)
    have hpos : 0 ≤ effectiveIvl ivl lu now := effectiveIvl_nonneg ivl lu now h4
    have hb1 := hb.1
    have h1ivl : 1 ≤ nextIvl (effectiveIvl ivl lu now)
        (min (multNum (adjustEase ease answ) answ) 13000) := by omega
    refine ⟨rfl, ?_, fun h => absurd h ha, fun _ => ⟨h1ivl, rfl⟩, rfl, by decide⟩
    show now < now + nextIvl (effectiveIvl ivl lu now)
      (min (multNum (adjustEase ease answ) answ) 13000) * 86400
    omega

/-- C4 witness: instantiation at ease 250, interval 0, grade Again. -/
theorem c4_next_review_after_last_witness :
    (calcScheduleCore newRepetition 250 0 0 0 AnswerEase.AnswerAgain).last_updated_seconds = 0 ∧
    (0:Int) < (calcScheduleCore newRepetition 250 0 0 0 AnswerEase.AnswerAgain).next_review_seconds ∧
    (AnswerEase.AnswerAgain = AnswerEase.AnswerAgain →
      (calcScheduleCore newRepetition 250 0 0 0 AnswerEase.AnswerAgain).ivl = 0 ∧
      (calcScheduleCore newRepetition 250 0 0 0 AnswerEase.AnswerAgain).next_review_seconds =
        0 + newRepetition.againDelaySeconds) ∧
    (AnswerEase.AnswerAgain ≠ AnswerEase.AnswerAgain →
      1 ≤ (calcScheduleCore newRepetition 250 0 0 0 AnswerEase.AnswerAgain).ivl ∧
      (calcScheduleCore newRepetition 250 0 0 0 AnswerEase.AnswerAgain).next_review_seconds =
        0 + (calcScheduleCore newRepetition 250 0 0 0 AnswerEase.AnswerAgain).ivl * 86400) ∧
    newRepetition.againDelaySeconds = 20 ∧ newRepetition.againDelaySeconds < 86400 :=
  c4_next_review_after_last 250 0 0 0 AnswerEase.AnswerAgain (by decide) (by decide)

/-- C10: the effective prior interval is the maximum of the stored interval
and the truncated whole days elapsed; it never falls below the stored
interval, and a clock reading earlier than the last review (for a
nonnegative stored interval) leaves the stored interval unchanged. -/
theorem c10_effective_interval (ivl lu now : Int) :
    effectiveIvl ivl lu now = max ivl (Int.tdiv (now - lu) 86400) ∧
    ivl ≤ effectiveIvl ivl lu now ∧
    (0 ≤ ivl → now < lu → effectiveIvl ivl lu now = ivl) := by
  refine ⟨?_, effectiveIvl_ge ivl lu now, ?_⟩
  · unfold effectiveIvl
    dsimp only
    rcases le_or_lt (Int.tdiv (now - lu) 86400) ivl with h | h
    · rw [if_neg (by omega), max_eq_left h]
    · rw [if_pos (by omega), max_eq_right (le_of_lt h)]
  · intro hivl hlt
    have hd : Int.tdiv (now - lu) 86400 ≤ 0 :=
      tdiv_nonpos_of_nonpos (now - lu) 86400 (by omega) (by norm_num)
    unfold effectiveIvl
    dsimp only
    rw [if_neg (by omega)]

/-- C10 witness: stored interval 5, last review at second 100, clock read
at second 0 (in the past of the last review). -/
theorem c10_effective_interval_witness :
    effectiveIvl 5 100 0 = max 5 (Int.tdiv (0 - 100) 86400) ∧
    (5:Int) ≤ effectiveIvl 5 100 0 ∧ effectiveIvl 5 100 0 = 5 :=
  ⟨(c10_effective_interval 5 100 0).1, (c10_effective_interval 5 100 0).2.1,
    (c10_effective_interval 5 100 0).2.2 (by decide) (by decide)⟩

/-! ### Claims C5, C6, C7, C9 -/

/-- The word and definition used in the C5 failing input. -/
def c5Word : List Char := String.toList "w"

/-- The definition text used in the C5 failing input. -/
def c5Def : List Char := String.toList "a definition"

/-- C5 (code bug evidence): `Save` evaluated at the failing input.  Each
inserted row carries the configured defaults (ease 250, interval 0,
`last_updated_seconds` = creation time, `next_review_seconds` = creation
time + initialIvl offset), but a second `Save` of the same
`(learner, word)` appends a second row — the table then holds two cards
for the key, not one (source comment: `FIXME: Don't insert duplicates!`). -/
theorem c5_save_duplicates :
    Save newRepetition (Save newRepetition [] 1 c5Word c5Def 1000) 1 c5Word c5Def 1000 =
      [{ chat_id := 1, word := c5Word, definition := c5Def, stage := 0,
         ease := 250, ivl := 0, last_updated_seconds := 1000,
         next_review_seconds := 1000 },
       { chat_id := 1, word := c5Word, definition := c5Def, stage := 0,
         ease := 250, ivl := 0, last_updated_seconds := 1000,
         next_review_seconds := 1000 }] ∧
    (Save newRepetition (Save newRepetition [] 1 c5Word c5Def 1000) 1 c5Word c5Def 1000).countP
        (fun r => decide (r.chat_id = 1 ∧ r.word = c5Word)) = 2 :=
  ⟨rfl, rfl⟩

/-- C6: grading a `(learner, word)` for which no row exists fails with the
no-rows error (`RepError.notFound`, the store's "no rows" result, which is
the spec's `NotFoundError`), and the table is returned completely
unchanged: the failing call writes nothing. -/
theorem c6_answer_notFound (cfg : RepetitionConfig) (db : DB) (chatID : Int)
    (word : List Char) (answ : AnswerEase) (now : Int)
    (h : db.find? (fun r => decide (r.word = word ∧ r.chat_id = chatID)) = none) :
    Answer cfg db chatID word answ now = (.error .notFound, db) := by
  unfold Answer CalcSchedule
  rw [h]

/-- C6 witness: grading on the empty table. -/
theorem c6_answer_notFound_witness :
    Answer newRepetition [] 1 (String.toList "missing") AnswerEase.AnswerGood 0 =
      (.error .notFound, ([] : DB)) :=
  c6_answer_notFound newRepetition [] 1 (String.toList "missing")
    AnswerEase.AnswerGood 0 rfl

/-- C7: `Delete` never returns an error (in particular not when the key is
absent), a second `Delete` of the same key returns no error and leaves the
very same table, and `CardExists` answers `false` after a `Delete`. -/
theorem c7_delete_idempotent (db : DB) (chatID : Int) (word : List Char) :
    (Delete db chatID word).1 = .ok () ∧
    Delete (Delete db chatID word).2 chatID word = Delete db chatID word ∧
    (CardExists (Delete db chatID word).2 chatID word).1 = .ok false := by
  refine ⟨rfl, ?_, ?_⟩
  · unfold Delete
    simp [List.filter_filter]
  · have hcount : ((Delete db chatID word).2).countP
        (fun r => decide (r.chat_id = chatID ∧ r.word = word)) = 0 := by
      unfold Delete
      rw [List.countP_eq_zero]
      intro r hr
      rw [List.mem_filter] at hr
      have h2 := hr.2
      simp only [Bool.not_eq_eq_eq_not, Bool.not_true, decide_eq_false_iff_not] at h2
      simp only [decide_eq_true_eq]
      tauto
    unfold CardExists
    rw [hcount]
    rfl

/-- C9: the passive reads — `Repeat`, `RepeatWord`, `GetDefinition`,
`CardExists` and the schedule computation `CalcSchedule` — all return the
table exactly as given: only grading, creation and deletion produce a new
table. -/
theorem c9_passive_reads_pure (cfg : RepetitionConfig) (db : DB) (chatID : Int)
    (word : List Char) (answ : AnswerEase) (now : Int) :
    (Repeat db chatID now).2 = db ∧ (RepeatWord db chatID now).2 = db ∧
    (GetDefinition db chatID word).2 = db ∧ (CardExists db chatID word).2 = db ∧
    (CalcSchedule cfg db chatID word answ now).2 = db := by
  refine ⟨?_, ?_, ?_, rfl, ?_⟩
  · unfold Repeat
    split <;> rfl
  · unfold RepeatWord
    split <;> rfl
  · unfold GetDefinition
    split <;> rfl
  · unfold CalcSchedule
    split <;> rfl

/-! ### String lemmas for the masking claim C8 -/

theorem raF_zero (w r s : List Char) : raF w r 0 s = [] := by
  cases s <;> rfl

theorem raF_cons (w r : List Char) (fuel : Nat) (c : Char) (s : List Char) :
    raF w r (fuel + 1) (c :: s) =
      if pre w (c :: s) = true then r ++ raF w r fuel ((c :: s).drop w.length)
      else c :: raF w r fuel s := rfl

theorem occurs_cons (w : List Char) (c : Char) (s : List Char) :
    occurs w (c :: s) = (pre w (c :: s) || occurs w s) := rfl

theorem pre_cons (a : Char) (as : List Char) (b : Char) (bs : List Char) :
    pre (a :: as) (b :: bs) = if a = b then pre as bs else false := rfl

theorem pre_append_self (w b : List Char) : pre w (w ++ b) = true := by
  induction w with
  | nil => rfl
  | cons a as ih => simp [pre_cons, ih]

theorem pre_iff_append (u v : List Char) : pre u v = true ↔ ∃ t, v = u ++ t := by
  induction u generalizing v with
  | nil =>
    simp only [pre, List.nil_append]
    exact ⟨fun _ => ⟨v, rfl⟩, fun _ => trivial⟩
  | cons a as ih =>
    cases v with
    | nil =>
      simp only [pre]
      constructor
      · intro h; exact absurd h (by simp)
      · rintro ⟨t, ht⟩; exact absurd ht (by simp)
    | cons b bs =>
      rw [pre_cons]
      by_cases hab : a = b
      · subst hab
        rw [if_pos rfl, ih]
        constructor
        · rintro ⟨t, rfl⟩; exact ⟨t, rfl⟩
        · rintro ⟨t, ht⟩
          injection ht with _ h2
          exact ⟨t, h2⟩
      · rw [if_neg hab]
        constructor
        · intro h; exact absurd h (by simp)
        · rintro ⟨t, ht⟩
          injection ht with h1 _
          exact absurd h1.symm hab

theorem occurs_iff_append (w s : List Char) :
    occurs w s = true ↔ ∃ a b, s = a ++ w ++ b := by
  induction s with
  | nil =>
    constructor
    · intro h
      have hw : w = [] := by
        cases w with
        | nil => rfl
        | cons x xs => exact absurd h (by simp [occurs])
      subst hw
      exact ⟨[], [], rfl⟩
    · rintro ⟨a, b, h⟩
      obtain ⟨h1, h2⟩ := List.append_eq_nil.mp h.symm
      obtain ⟨_, h4⟩ := List.append_eq_nil.mp h1
      subst h4
      rfl
  | cons c s ih =>
    rw [occurs_cons, Bool.or_eq_true, ih, pre_iff_append]
    constructor
    · rintro (⟨t, ht⟩ | ⟨a, b, rfl⟩)
      · exact ⟨[], t, by simpa using ht⟩
      · exact ⟨c :: a, b, rfl⟩
    · rintro ⟨a, b, h⟩
      cases a with
      | nil => exact Or.inl ⟨b, by simpa using h⟩
      | cons x xs =>
        right
        injection h with _ h2
        exact ⟨xs, b, h2⟩

theorem occurs_nil_false (w : List Char) (hw : w ≠ []) : occurs w [] = false := by
  cases w with
  | nil => exact absurd rfl hw
  | cons a as => rfl

theorem pre_star_false (u : List Char) (hu : u ≠ []) (hs : ('*' : Char) ∉ u)
    (y : List Char) : pre u ('*' :: y) = false := by
  cases u with
  | nil => exact absurd rfl hu
  | cons a as =>
    rw [List.mem_cons, not_or] at hs
    rw [pre_cons, if_neg (fun h => hs.1 h.symm)]

theorem occurs_replicate_star (w : List Char) (hw : w ≠ []) (hs : ('*' : Char) ∉ w) :
    ∀ (n : Nat) (x : List Char), occurs w (List.replicate n '*' ++ x) = occurs w x := by
  intro n
  induction n with
  | zero => intro x; rfl
  | succ n ih =>
    intro x
    rw [List.replicate_succ, List.cons_append, occurs_cons,
      pre_star_false w hw hs, ih]
    simp

theorem pre_raF (w : List Char) :
    ∀ (fuel : Nat) (s u : List Char), u ≠ [] → ('*' : Char) ∉ u →
      pre u (raF w (List.replicate 8 '*') fuel s) = true → pre u s = true := by
  intro fuel
  induction fuel with
  | zero =>
    intro s u hu _ hp
    rw [raF_zero] at hp
    cases u with
    | nil => exact absurd rfl hu
    | cons a as => exact absurd hp (by simp [pre])
  | succ fuel ih =>
    intro s u hu hs hp
    cases s with
    | nil =>
      rw [show raF w (List.replicate 8 '*') (fuel + 1) [] = [] from rfl] at hp
      cases u with
      | nil => exact absurd rfl hu
      | cons a as => exact absurd hp (by simp [pre])
    | cons c s =>
      rw [raF_cons] at hp
      by_cases hm : pre w (c :: s) = true
      · rw [if_pos hm] at hp
        rw [show (List.replicate 8 '*' : List Char) = '*' :: List.replicate 7 '*' from rfl,
          List.cons_append, pre_star_false u hu hs] at hp
        exact absurd hp (by simp)
      · rw [if_neg hm] at hp
        cases u with
        | nil => exact absurd rfl hu
        | cons a as =>
          rw [pre_cons] at hp
          by_cases hac : a = c
          · rw [if_pos hac] at hp
            cases as with
            | nil =>
              subst hac
              rw [pre_cons, if_pos rfl]
              rfl
            | cons x xs =>
              have hxs : pre (x :: xs) s = true :=
                ih s (x :: xs) (by simp)
                  (fun hmem => hs (List.mem_cons_of_mem a hmem)) hp
              rw [pre_cons, if_pos hac]
              exact hxs
          · rw [if_neg hac] at hp
            exact absurd hp (by simp)

theorem occurs_raF (w : List Char) (hw : w ≠ []) (hs : ('*' : Char) ∉ w) :
    ∀ (fuel : Nat) (s : List Char), s.length ≤ fuel →
      occurs w (raF w (List.replicate 8 '*') fuel s) = false := by
  intro fuel
  induction fuel with
  | zero =>
    intro s _
    rw [raF_zero]
    exact occurs_nil_false w hw
  | succ fuel ih =>
    intro s hl
    cases s with
    | nil =>
      rw [show raF w (List.replicate 8 '*') (fuel + 1) [] = [] from rfl]
      exact occurs_nil_false w hw
    | cons c s =>
      rw [raF_cons]
      have hwpos : 1 ≤ w.length := List.length_pos.mpr hw
      by_cases hm : pre w (c :: s) = true
      · rw [if_pos hm, occurs_replicate_star w hw hs]
        apply ih
        rw [List.length_drop]
        simp only [List.length_cons] at hl ⊢
        omega
      · rw [if_neg hm]
        have h2 : occurs w (raF w (List.replicate 8 '*') fuel s) = false := by
          apply ih
          simp only [List.length_cons] at hl
          omega
        have h1 : pre w (c :: raF w (List.replicate 8 '*') fuel s) = false := by
          cases hx : pre w (c :: raF w (List.replicate 8 '*') fuel s) with
          | false => rfl
          | true =>
            exfalso
            cases w with
            | nil => exact hw rfl
            | cons a as =>
              rw [pre_cons] at hx
              by_cases hac : a = c
              · rw [if_pos hac] at hx
                cases as with
                | nil =>
                  apply hm
                  subst hac
                  rw [pre_cons, if_pos rfl]
                  rfl
                | cons x xs =>
                  have hxs : pre (x :: xs) s = true :=
                    pre_raF (a :: x :: xs) fuel s (x :: xs) (by simp)
                      (fun hmem => by
                        rw [List.mem_cons, not_or] at hs
                        exact hs.2 hmem) hx
                  apply hm
                  rw [pre_cons, if_pos hac]
                  exact hxs
              · rw [if_neg hac] at hx
                exact absurd hx (by simp)
        rw [occurs_cons, h1, h2]
        rfl

theorem maskDefinition_strip (d w : List Char) :
    maskDefinition d w = replaceAll (stripFirstSection d) w (List.replicate 8 '*') := rfl

theorem occurs_maskDefinition (d w : List Char) (hw : w ≠ [])
    (hs : ('*' : Char) ∉ w) : occurs w (maskDefinition d w) = false := by
  have hne : ¬(w.isEmpty = true) := by
    cases w with
    | nil => exact absurd rfl hw
    | cons a as => simp
  rw [maskDefinition_strip]
  unfold replaceAll
  rw [if_neg hne]
  exact occurs_raF w hw hs _ _ (le_refl _)

/-! ### Claim C8 -/

/-- C8 (amended): the prompt returned by `Repeat` for the found due row is
exactly the row's definition with its first blank-line-separated section
stripped and all occurrences of the word replaced by the 8-character
placeholder, and — provided the word is non-empty and does not contain the
placeholder character `*` — the prompt never contains the word as a
substring. -/
theorem c8_repeat_masks (db : DB) (chatID now : Int) (r : Row)
    (hf : db.find? (fun x => decide (x.next_review_seconds ≤ now ∧ x.chat_id = chatID)) =
      some r)
    (hw : r.word ≠ []) (hs : ('*' : Char) ∉ r.word) :
    (Repeat db chatID now).1 =
      Except.ok (replaceAll (stripFirstSection r.definition) r.word
        (List.replicate 8 '*')) ∧
    ∀ a b : List Char, (Repeat db chatID now).1 ≠ Except.ok (a ++ r.word ++ b) := by
  have hrep : (Repeat db chatID now).1 =
      Except.ok (maskDefinition r.definition r.word) := by
    unfold Repeat
    rw [hf]
  constructor
  · rw [hrep, maskDefinition_strip]
  · intro a b hcontra
    rw [hrep] at hcontra
    have heq : maskDefinition r.definition r.word = a ++ r.word ++ b := by
      injection hcontra
    have hocc : occurs r.word (maskDefinition r.definition r.word) = true := by
      rw [occurs_iff_append]
      exact ⟨a, b, heq⟩
    rw [occurs_maskDefinition r.definition r.word hw hs] at hocc
    exact Bool.false_ne_true hocc

/-- The row used as the C8 witness input. -/
def c8Row : Row :=
  { chat_id := 1, word := String.toList "cat",
    definition := String.toList "cat: an animal\n\nthe cat purrs", stage := 0,
    ease := 250, ivl := 0, last_updated_seconds := 0, next_review_seconds := 0 }

/-- C8 witness: the single-row table holding `c8Row`, reviewed at time 100. -/
theorem c8_repeat_masks_witness :
    (Repeat [c8Row] 1 100).1 =
      Except.ok (replaceAll (stripFirstSection c8Row.definition) c8Row.word
        (List.replicate 8 '*')) ∧
    (Repeat [c8Row] 1 100).1 ≠
      Except.ok ([] ++ c8Row.word ++ String.toList " purrs") :=
  ⟨(c8_repeat_masks [c8Row] 1 100 c8Row rfl (by decide) (by decide)).1,
   (c8_repeat_masks [c8Row] 1 100 c8Row rfl (by decide) (by decide)).2
     [] (String.toList " purrs")⟩

/-- The row used in the C8 counterexample: the stored word is `"*"`. -/
def c8StarRow : Row :=
  { chat_id := 1, word := String.toList "*",
    definition := String.toList "a\n\nb*c", stage := 0,
    ease := 250, ivl := 0, last_updated_seconds := 0, next_review_seconds := 0 }

/-- C8 counterexample: with stored word `"*"` and definition `"a\n\nb*c"`,
the prompt returned by `Repeat` is `"b********c"`, which decomposes as
`"b" ++ "*" ++ "*******c"` — it contains the word as a substring, so the
no-leak clause of the claim is false as stated. -/
theorem c8_counterexample :
    (Repeat [c8StarRow] 1 100).1 = Except.ok (String.toList "b********c") ∧
    String.toList "b********c" =
      String.toList "b" ++ String.toList "*" ++ String.toList "*******c" ∧
    occurs (String.toList "*") (String.toList "b********c") = true :=
  ⟨rfl, rfl, rfl⟩
